import Mathlib

/-!
Shallow embedding of the matching engine, escrow ledger and deferred freight
settlement of `backend/app/matching.py` (container-futures marketplace MVP).

Modelling conventions:
* Money is `ℚ` (the source stores balances as Redis float hashes mutated by
  `hincrbyfloat`; exact rational arithmetic stands in for float arithmetic).
* The escrow ledger is an append-only journal of `hincrbyfloat` deltas;
  a trader's `balance` / `locked` field is the sum of their deltas, and a
  missing account reads as zero exactly as `get_trader_balance` initialises it.
* A Redis sorted set stores `(member, score)` pairs ordered by score, ties by
  member; the source stores bids with score `-price` and asks with score
  `price`.  Order ids (uuid4 in the source) are modelled by a fresh counter,
  which also stands in for the submission timestamp.  `zrange(book, 0, 0)`
  and `zrevrange(book, 0, 0)` are modelled by `pickLow` / `pickHighScore`.
* Order validation rejects `qty <= 0`, so quantities are `Nat`.
* Contract status strings and per-leg metadata writes are not tracked; the
  `current_owner_id` hash field writes are kept as an association list.
-/

namespace ContainerFutures

inductive Side where
  | bid
  | ask
deriving DecidableEq, Repr

inductive OrderType where
  | CONTRACT_OWNERSHIP
  | LEG_FREIGHT
deriving DecidableEq, Repr

/-- The two monetary fields of an escrow hash (`balance` = available). -/
inductive BalField where
  | balance
  | locked
deriving DecidableEq, Repr

/-- `models.Order` (the `leg_id` field holds the book id, as in the source). -/
structure Order where
  oid : Nat
  legId : String
  trader : String
  side : Side
  price : ℚ
  qty : Nat
  ts : Nat
  orderType : OrderType
  containerContractId : Option String
deriving DecidableEq, Repr

/-- `models.Match`. -/
structure MatchRec where
  mid : Nat
  legId : String
  bidId : Nat
  askId : Nat
  bidTrader : String
  askTrader : String
  price : ℚ
  qty : Nat
  matchType : OrderType
  containerContractId : Option String
deriving DecidableEq, Repr

inductive HoldStatus where
  | PENDING_DELIVERY
  | SETTLED
deriving DecidableEq, Repr

/-- `models.LegSettlementHold`, stored under the key `leg_settlement_hold:{match_id}`. -/
structure LegSettlementHold where
  matchId : Nat
  legId : String
  contractId : String
  amount : ℚ
  payerId : String
  payeeId : String
  status : HoldStatus
deriving DecidableEq, Repr

/-- One `hincrbyfloat` applied to an escrow hash. -/
structure LEntry where
  trader : String
  field : BalField
  amount : ℚ
deriving DecidableEq, Repr

/-- The Redis state touched by the matching module. -/
structure ExchState where
  journal : List LEntry
  restingBids : List Order
  restingAsks : List Order
  holds : List LegSettlementHold
  owners : List (String × String)
  nextId : Nat
deriving DecidableEq, Repr

def init : ExchState := ⟨[], [], [], [], [], 0⟩

def PLATFORM_FEE_PERCENTAGE : ℚ := 1 / 100

def PLATFORM_TRADER_ID : String := "Platform"

/-- Contribution of one journal entry to a trader's field. -/
def entryContrib (t : String) (f : BalField) (e : LEntry) : ℚ :=
  if e.trader = t ∧ e.field = f then e.amount else 0

/-- `get_trader_balance(t)["balance"]` (available funds). -/
def balOf (s : ExchState) (t : String) : ℚ :=
  (s.journal.map (entryContrib t .balance)).sum

/-- `get_trader_balance(t)["locked"]`. -/
def lockedOf (s : ExchState) (t : String) : ℚ :=
  (s.journal.map (entryContrib t .locked)).sum

/-- Append one `hincrbyfloat` delta to the journal. -/
def post (s : ExchState) (t : String) (f : BalField) (a : ℚ) : ExchState :=
  { s with journal := ⟨t, f, a⟩ :: s.journal }

/-- `adjust_trader_balance`: an unconditional `hincrbyfloat`; always reports success. -/
def adjust_trader_balance (trader_id : String) (amount : ℚ) (field : BalField)
    (s : ExchState) : Bool × ExchState :=
  (true, post s trader_id field amount)

/-- `lock_funds`. -/
def lock_funds (trader_id : String) (amount : ℚ) (s : ExchState) : Bool × ExchState :=
  if amount ≤ 0 then (true, s)
  else if balOf s trader_id < amount then (false, s)
  else (true, post (post s trader_id .balance (-amount)) trader_id .locked amount)

/-- `release_funds`. -/
def release_funds (trader_id : String) (amount : ℚ) (s : ExchState) : Bool × ExchState :=
  if amount ≤ 0 then (true, s)
  else
    let amount_to_release := min amount (lockedOf s trader_id)
    if 0 < amount_to_release then
      (true, post (post s trader_id .balance amount_to_release) trader_id .locked (-amount_to_release))
    else (true, s)

def bookBids (s : ExchState) (book_id : String) : List Order :=
  s.restingBids.filter (fun o => o.legId = book_id)

def bookAsks (s : ExchState) (book_id : String) : List Order :=
  s.restingAsks.filter (fun o => o.legId = book_id)

/-- `zrange(book, 0, 0)`: the member with the least score (asks carry score
`price`), ties by least member. -/
def pickLow : List Order → Option Order
  | [] => none
  | o :: rest =>
    match pickLow rest with
    | none => some o
    | some b => some (if o.price < b.price ∨ (o.price = b.price ∧ o.oid < b.oid) then o else b)

/-- `zrevrange(book, 0, 0)`: the member with the greatest score (bids carry
score `-price`), ties by greatest member. -/
def pickHighScore : List Order → Option Order
  | [] => none
  | o :: rest =>
    match pickHighScore rest with
    | none => some o
    | some b => some (if -b.price < -o.price ∨ (o.price = b.price ∧ b.oid < o.oid) then o else b)

/-- Modelled from the spec: `peek` on the bid side (§4.3 Books) — the best bid
is the one of maximal price, ties broken by earliest arrival timestamp.  It is
stated here only to compare the source's selection against the spec's. -/
def peekBestBid : List Order → Option Order
  | [] => none
  | o :: rest =>
    match peekBestBid rest with
    | none => some o
    | some b => some (if b.price < o.price ∨ (o.price = b.price ∧ o.ts < b.ts) then o else b)

/-- The opposite-side order the engine fetches for the crossing check
(`matching.py` lines 169–178). -/
def findOpp (side : Side) (book_id : String) (s : ExchState) : Option Order :=
  match side with
  | .bid => pickLow (bookAsks s book_id)
  | .ask => pickHighScore (bookBids s book_id)

/-- Crossing predicate (`matching.py` lines 189–192). -/
def canMatch (side : Side) (price opp_price : ℚ) : Bool :=
  match side with
  | .bid => decide (opp_price ≤ price)
  | .ask => decide (price ≤ opp_price)

/-- Immediate settlement of a CONTRACT_OWNERSHIP match (lines 212–226);
contract status advancement is not tracked. -/
def settleContract (bidder asker : String) (cid : Option String) (amt : ℚ)
    (s : ExchState) : ExchState :=
  let s1 := (adjust_trader_balance bidder (-amt) .locked s).2
  let fee := amt * PLATFORM_FEE_PERCENTAGE
  let s2 := (adjust_trader_balance asker (amt - fee) .balance s1).2
  let s3 := (adjust_trader_balance PLATFORM_TRADER_ID fee .balance s2).2
  match cid with
  | some c => { s3 with owners := (c, bidder) :: s3.owners }
  | none => s3

/-- Creation of a PENDING_DELIVERY hold for a LEG_FREIGHT match (lines 227–235). -/
def mkHold (mid : Nat) (book_id : String) (cid : Option String) (amt : ℚ)
    (payer payee : String) (s : ExchState) : ExchState :=
  { s with holds :=
      ⟨mid, book_id, cid.getD "UNKNOWN_CONTRACT", amt, payer, payee, .PENDING_DELIVERY⟩ :: s.holds }

/-- `zrem` of a resting bid. -/
def zremBid (k : Nat) (s : ExchState) : ExchState :=
  { s with restingBids := s.restingBids.filter (fun o => decide (o.oid ≠ k)) }

/-- `zrem` of a resting ask. -/
def zremAsk (k : Nat) (s : ExchState) : ExchState :=
  { s with restingAsks := s.restingAsks.filter (fun o => decide (o.oid ≠ k)) }

/-- Price-improvement release for a fully matched incoming bid (lines 239–242). -/
def priceImprovementRelease (trader_id : String) (price match_price : ℚ)
    (qty match_qty : Nat) (s : ExchState) : ExchState :=
  if qty = match_qty then
    let price_improvement := (price - match_price) * (qty : ℚ)
    if 0 < price_improvement then (release_funds trader_id price_improvement s).2 else s
  else s

/-- The `can_match` branch of `submit_order` (lines 194–243). -/
def doMatch (side : Side) (book_id : String) (price : ℚ) (qty : Nat)
    (trader_id : String) (order_type : OrderType) (cid : Option String)
    (order opp : Order) (s : ExchState) : Option MatchRec × ExchState :=
  let match_price := opp.price
  let match_qty := min qty opp.qty
  let bid_order := if side = .bid then order else opp
  let ask_order := if side = .ask then order else opp
  let m : MatchRec := ⟨s.nextId, book_id, bid_order.oid, ask_order.oid,
      bid_order.trader, ask_order.trader, match_price, match_qty, order_type, cid⟩
  let s2 : ExchState := { s with nextId := s.nextId + 1 }
  let amt := match_price * (match_qty : ℚ)
  let s3 :=
    match order_type with
    | .CONTRACT_OWNERSHIP => settleContract bid_order.trader ask_order.trader cid amt s2
    | .LEG_FREIGHT => mkHold m.mid book_id cid amt bid_order.trader ask_order.trader s2
  let s4 :=
    match side with
    | .bid => zremAsk opp.oid s3
    | .ask => zremBid opp.oid s3
  let s5 := if side = .bid then priceImprovementRelease trader_id price match_price qty match_qty s4 else s4
  (some m, s5)

/-- Bid side of the book after inserting a resting order (line 246–247). -/
def restBids (order : Order) (s : ExchState) : List Order :=
  match order.side with
  | .bid => order :: s.restingBids
  | .ask => s.restingBids

/-- Ask side of the book after inserting a resting order (line 246–247). -/
def restAsks (order : Order) (s : ExchState) : List Order :=
  match order.side with
  | .bid => s.restingAsks
  | .ask => order :: s.restingAsks

/-- Ownership-book side effect for an admitted resting bid (lines 250–261):
the `current_owner_id` write driven by `zrevrange(bid-book, 0, 0)`. -/
def restOwnerUpdate (order : Order) (bidsAfter : List Order)
    (owners : List (String × String)) : List (String × String) :=
  if order.side = .bid ∧ order.orderType = .CONTRACT_OWNERSHIP then
    match pickHighScore (bidsAfter.filter (fun o => o.legId = order.legId)) with
    | some hb => ((order.legId.splitOn ":").getLastD "", hb.trader) :: owners
    | none => owners
  else owners

/-- The "no match: add order to book" tail of `submit_order` (lines 245–262),
including the ownership-book side effect for resting bids. -/
def restOrder (order : Order) (s : ExchState) : Option MatchRec × ExchState :=
  (none, { s with
     restingBids := restBids order s,
     restingAsks := restAsks order s,
     owners := restOwnerUpdate order (restBids order s) s.owners })

/-- `submit_order`.  On a validation failure or a failed pre-trade lock the
source deletes the just-stored order record, leaving the net state unchanged,
so those paths return the input state. -/
def submit_order (side : Side) (book_id : String) (price : ℚ) (qty : Nat)
    (trader_id : String) (order_type : OrderType)
    (container_contract_id : Option String) (s0 : ExchState) :
    Option MatchRec × ExchState :=
  if price ≤ 0 ∨ qty = 0 then (none, s0)
  else if side = .bid ∧ (lock_funds trader_id (price * (qty : ℚ)) s0).1 = false then (none, s0)
  else
    let order : Order := ⟨s0.nextId, book_id, trader_id, side, price, qty, s0.nextId,
        order_type, container_contract_id⟩
    let sL := if side = .bid then (lock_funds trader_id (price * (qty : ℚ)) s0).2 else s0
    let s1 : ExchState := { sL with nextId := s0.nextId + 1 }
    match findOpp side book_id s1 with
    | some opp =>
      if canMatch side price opp.price then
        doMatch side book_id price qty trader_id order_type container_contract_id order opp s1
      else restOrder order s1
    | none => restOrder order s1

/-- Settlement of a single PENDING_DELIVERY hold (lines 288–308); per-leg
metadata writes are not tracked. -/
def settleHold (h : LegSettlementHold) (s : ExchState) : ExchState :=
  let s1 := (adjust_trader_balance h.payerId (-h.amount) .locked s).2
  let platform_fee := h.amount * PLATFORM_FEE_PERCENTAGE
  let s2 := (adjust_trader_balance h.payeeId (h.amount - platform_fee) .balance s1).2
  let s3 := (adjust_trader_balance PLATFORM_TRADER_ID platform_fee .balance s2).2
  { s3 with holds :=
      s3.holds.map (fun h2 => if h2.matchId = h.matchId then { h2 with status := .SETTLED } else h2) }

/-- `finalize_leg_freight_settlement`. -/
def finalize_leg_freight_settlement (base_leg_id contract_id : String)
    (s : ExchState) : Bool × ExchState :=
  let full_leg_id := base_leg_id ++ "_" ++ contract_id
  let pending := s.holds.filter (fun h =>
    h.legId = full_leg_id ∧ h.contractId = contract_id ∧ h.status = .PENDING_DELIVERY)
  if pending = [] then (false, s)
  else (true, pending.foldl (fun st h => settleHold h st) s)

/-- External events driving the system: funding (`seed.fund_trader`, a credit
to `balance`), order submission, and an IoT delivery event triggering
`finalize_leg_freight_settlement`. -/
inductive Event where
  | fund (trader : String) (amount : ℚ)
  | submit (side : Side) (book_id : String) (price : ℚ) (qty : Nat)
      (trader : String) (order_type : OrderType) (cid : Option String)
  | deliver (base_leg_id contract_id : String)

def applyEvent (e : Event) (s : ExchState) : ExchState :=
  match e with
  | .fund t a => post s t .balance a
  | .submit side b p q t ot cid => (submit_order side b p q t ot cid s).2
  | .deliver l c => (finalize_leg_freight_settlement l c s).2

def runEvents (es : List Event) (s : ExchState) : ExchState :=
  es.foldl (fun st e => applyEvent e st) s

def fundedTotal : List Event → ℚ
  | [] => 0
  | .fund _ a :: es => a + fundedTotal es
  | .submit _ _ _ _ _ _ _ :: es => fundedTotal es
  | .deliver _ _ :: es => fundedTotal es

/-- Sum of every delta ever journalled: the total money in the ledger. -/
def journalSum (s : ExchState) : ℚ := (s.journal.map (fun e => e.amount)).sum

/-- All money (both fields) a trader holds. -/
def moneyOf (s : ExchState) (t : String) : ℚ := balOf s t + lockedOf s t

/-- Contribution of one hold to the PENDING_DELIVERY exposure of payer `t`. -/
def holdContrib (t : String) (h : LegSettlementHold) : ℚ :=
  if h.payerId = t ∧ h.status = .PENDING_DELIVERY then h.amount else 0

/-- Total amount of PENDING_DELIVERY holds whose payer is `t`. -/
def pendingHoldsOf (s : ExchState) (t : String) : ℚ :=
  (s.holds.map (holdContrib t)).sum

/-- Contribution of one resting bid to the earmarked lock of trader `t`. -/
def bidLockContrib (t : String) (o : Order) : ℚ :=
  if o.trader = t then o.price * (o.qty : ℚ) else 0

/-- Total `price·qty` of resting bids of trader `t` (funds locked at submission
and not yet consumed or released). -/
def restingBidLockOf (s : ExchState) (t : String) : ℚ :=
  (s.restingBids.map (bidLockContrib t)).sum

/-- Latest `current_owner_id` write for a contract. -/
def ownerOf (s : ExchState) (cid : String) : Option String :=
  (s.owners.find? (fun p => p.1 = cid)).map (fun p => p.2)

/-- Best (maximal) bid price resting on a book, per the spec's book invariant. -/
def bestBidPrice (s : ExchState) (book_id : String) : Option ℚ :=
  (peekBestBid (bookBids s book_id)).map (fun o => o.price)

/-- Best (minimal) ask price resting on a book. -/
def bestAskPrice (s : ExchState) (book_id : String) : Option ℚ :=
  (pickLow (bookAsks s book_id)).map (fun o => o.price)

/-- The inductive invariant maintained by funding, `submit_order` and
`finalize_leg_freight_settlement`: resting orders carry positive prices,
ids are fresh and pairwise distinct, and every trader's locked funds cover
their PENDING_DELIVERY holds plus their resting-bid earmarks. -/
structure Inv (s : ExchState) : Prop where
  bidPricePos : ∀ o ∈ s.restingBids, 0 < o.price
  askPricePos : ∀ o ∈ s.restingAsks, 0 < o.price
  bidOidLt : ∀ o ∈ s.restingBids, o.oid < s.nextId
  holdIdLt : ∀ h ∈ s.holds, h.matchId < s.nextId
  bidOidNodup : (s.restingBids.map (fun o => o.oid)).Nodup
  holdIdNodup : (s.holds.map (fun h => h.matchId)).Nodup
  money : ∀ t, pendingHoldsOf s t + restingBidLockOf s t ≤ lockedOf s t

/-- C1: the claim that an incoming ask is checked/matched against the
highest-priced resting bid (the spec's `peek`) is false on the code: bids are
stored with score `-price` and fetched with `zrevrange(..., 0, 0)`, which
returns the greatest score, i.e. the LOWEST-priced bid.  With bids 5 (T1) and
10 (T2) resting, `peek` names T2's bid at 10, yet an incoming ask at 4 is
matched against T1's bid at price 5. -/
theorem ask_matched_against_lowest_bid_exhibit :
    (let s := runEvents [.fund "T1" 100, .fund "T2" 100,
        .submit .bid "B" 5 1 "T1" .LEG_FREIGHT none,
        .submit .bid "B" 10 1 "T2" .LEG_FREIGHT none] init
     (peekBestBid (bookBids s "B")).map (fun o => (o.trader, o.price)) = some ("T2", (10 : ℚ))
      ∧ ((submit_order .ask "B" 4 1 "T3" .LEG_FREIGHT none s).1.map
          (fun m => (m.bidTrader, m.price))) = some ("T1", (5 : ℚ))) := by
  exact ⟨by with_unfolding_all rfl, by with_unfolding_all rfl⟩

/-- C2: the claim that a partially consumed resting order stays in the book
with its quantity decremented is false on the code: `submit_order`
unconditionally `zrem`s the matched resting order and never decrements its
`qty`.  A resting ask of 50 lots at price 10 hit by a 30-lot bid at 10 is
matched for 30 lots and the ask side of the book becomes empty. -/
theorem partial_fill_removes_resting_order_exhibit :
    (let s := runEvents [.fund "T1" 300,
        .submit .ask "B" 10 50 "T2" .LEG_FREIGHT none] init
     let r := submit_order .bid "B" 10 30 "T1" .LEG_FREIGHT none s
     r.1.map (fun m => (m.price, m.qty)) = some ((10 : ℚ), 30) ∧ bookAsks r.2 "B" = []) := by
  exact ⟨by with_unfolding_all rfl, by with_unfolding_all rfl⟩

/-- C3: the no-crossed-book invariant is false on the code: an incoming ask is
compared against the lowest resting bid, so an ask priced between the lowest
and highest bid rests without matching.  After bids at 5 and 10 and an ask at
7, the book rests with best bid 10 and best ask 7 — crossed. -/
theorem crossed_book_reachable_exhibit :
    (let s := runEvents [.fund "T1" 100, .fund "T2" 100,
        .submit .bid "B" 5 1 "T1" .LEG_FREIGHT none,
        .submit .bid "B" 10 1 "T2" .LEG_FREIGHT none,
        .submit .ask "B" 7 1 "T3" .LEG_FREIGHT none] init
     bestBidPrice s "B" = some 10 ∧ bestAskPrice s "B" = some 7 ∧ (7 : ℚ) < 10) := by
  exact ⟨by with_unfolding_all rfl, by with_unfolding_all rfl, by norm_num⟩

/-- C4: the claim that the balance-adjustment operation fails when a debit
would drive the field below zero is false on the code:
`adjust_trader_balance` is an unconditional `hincrbyfloat` that reports
success; debiting 100 from a zero locked balance succeeds and leaves the
field at -100. -/
theorem adjust_trader_balance_goes_negative_exhibit :
    (adjust_trader_balance "T1" (-100) .locked init).1 = true
      ∧ lockedOf (adjust_trader_balance "T1" (-100) .locked init).2 "T1" = -100 := by
  exact ⟨rfl, by with_unfolding_all rfl⟩

/-- C6: the claim that the contract owner is updated to the highest resting
bidder is false on the code: the ownership side-effect also uses
`zrevrange(bid-book, 0, 0)` over `-price` scores, i.e. the LOWEST bid.  With
A's bid at 10 resting, B's later bid at 5 makes B the recorded owner. -/
theorem owner_set_to_lowest_bidder_exhibit :
    (let s := runEvents [.fund "A" 100, .fund "B" 100,
        .submit .bid "contract:C1" 10 1 "A" .CONTRACT_OWNERSHIP (some "C1"),
        .submit .bid "contract:C1" 5 1 "B" .CONTRACT_OWNERSHIP (some "C1")] init
     (peekBestBid (bookBids s "contract:C1")).map (fun o => o.trader) = some "A"
      ∧ ownerOf s "C1" = some "B") := by
  exact ⟨by with_unfolding_all rfl, by with_unfolding_all rfl⟩

/-- C7: a bid that cannot lock `price·qty` is rejected atomically: no match is
returned and the state (ledger, books, holds, owners) is exactly the input
state — the order record stored before the lock attempt is deleted again. -/
theorem bid_insufficient_funds_rejected_atomically
    (s : ExchState) (book : String) (price : ℚ) (qty : Nat) (trader : String)
    (ot : OrderType) (cid : Option String)
    (hp : 0 < price) (hq : qty ≠ 0) (hbal : balOf s trader < price * (qty : ℚ)) :
    submit_order .bid book price qty trader ot cid s = (none, s) := by
  have hq' : 0 < ((qty : ℚ)) := by exact_mod_cast Nat.pos_of_ne_zero hq
  have hamt : 0 < price * (qty : ℚ) := mul_pos hp hq'
  have hlock : lock_funds trader (price * (qty : ℚ)) s = (false, s) := by
    unfold lock_funds
    rw [if_neg (not_le.mpr hamt), if_pos hbal]
  unfold submit_order
  rw [if_neg (by push_neg; exact ⟨hp, hq⟩), if_pos ⟨rfl, by rw [hlock]⟩]

/-- Witness for the C7 theorem at a concrete input: a trader with 5 available
cannot lock 10·1 and the submission leaves the funded state untouched. -/
theorem bid_insufficient_funds_rejected_atomically_witness :
    submit_order .bid "B" 10 1 "T1" .LEG_FREIGHT none (post init "T1" .balance 5)
      = (none, post init "T1" .balance 5) :=
  bid_insufficient_funds_rejected_atomically (post init "T1" .balance 5) "B" 10 1 "T1"
    .LEG_FREIGHT none (by norm_num) (by decide)
    (by with_unfolding_all exact of_decide_eq_true rfl)

/-- C10: locking or releasing a non-positive amount is a silent no-op at the
ledger interface: both `lock_funds` and `release_funds` return success and
leave the state unchanged. -/
theorem lock_release_nonpositive_noop (s : ExchState) (t : String) (a : ℚ) (h : a ≤ 0) :
    lock_funds t a s = (true, s) ∧ release_funds t a s = (true, s) := by
  unfold lock_funds release_funds
  rw [if_pos h, if_pos h]
  exact ⟨rfl, rfl⟩

/-- Witness for the C10 theorem at amount 0 (and implicitly any `a ≤ 0`). -/
theorem lock_release_nonpositive_noop_witness :
    lock_funds "T1" 0 init = (true, init) ∧ release_funds "T1" 0 init = (true, init) :=
  lock_release_nonpositive_noop init "T1" 0 (by norm_num)

/-- C9: replaying a delivery event for a leg whose settlement holds are all
already SETTLED is a no-op: `finalize_leg_freight_settlement` only selects
holds still in PENDING_DELIVERY, so it returns `False` and the state —
balances, hold statuses, books — is exactly the input state; consequently a
hold is settled (PENDING_DELIVERY → SETTLED) at most once. -/
theorem replay_settled_delivery_noop (s : ExchState) (base cid : String)
    (hall : ∀ h ∈ s.holds, h.legId = base ++ "_" ++ cid → h.contractId = cid →
      h.status = HoldStatus.SETTLED) :
    finalize_leg_freight_settlement base cid s = (false, s) := by
  have hfil : s.holds.filter (fun h =>
      h.legId = base ++ "_" ++ cid ∧ h.contractId = cid ∧
        h.status = HoldStatus.PENDING_DELIVERY) = [] := by
    apply List.filter_eq_nil_iff.mpr
    intro h hmem
    simp only [decide_eq_true_eq, not_and]
    intro h1 h2 h3
    rw [hall h hmem h1 h2] at h3
    exact HoldStatus.noConfusion h3
  simp only [finalize_leg_freight_settlement]
  rw [hfil]
  rfl

/-- Witness for the C9 theorem: a state holding one already-SETTLED hold for
leg `L1_C1` of contract `C1`; the delivery replay returns `False` and leaves
the state untouched. -/
theorem replay_settled_delivery_noop_witness :
    finalize_leg_freight_settlement "L1" "C1"
        ⟨[], [], [], [⟨0, "L1_C1", "C1", 5, "A", "Bb", .SETTLED⟩], [], 1⟩
      = (false, ⟨[], [], [], [⟨0, "L1_C1", "C1", 5, "A", "Bb", .SETTLED⟩], [], 1⟩) :=
  replay_settled_delivery_noop _ "L1" "C1" (by decide)

theorem journalSum_post (s : ExchState) (t : String) (f : BalField) (a : ℚ) :
    journalSum (post s t f a) = a + journalSum s := by
  simp [journalSum, post]

theorem journalSum_adjust (t : String) (a : ℚ) (f : BalField) (s : ExchState) :
    journalSum (adjust_trader_balance t a f s).2 = a + journalSum s := by
  simp [adjust_trader_balance, journalSum_post]

theorem journalSum_lock (t : String) (a : ℚ) (s : ExchState) :
    journalSum (lock_funds t a s).2 = journalSum s := by
  simp only [lock_funds]
  split_ifs <;> simp [journalSum_post]

theorem journalSum_release (t : String) (a : ℚ) (s : ExchState) :
    journalSum (release_funds t a s).2 = journalSum s := by
  simp only [release_funds]
  split_ifs <;> simp [journalSum_post]

theorem journalSum_bump (s : ExchState) (n : Nat) :
    journalSum { s with nextId := n } = journalSum s := rfl

theorem journalSum_mkHold (mid : Nat) (book : String) (cid : Option String)
    (amt : ℚ) (payer payee : String) (s : ExchState) :
    journalSum (mkHold mid book cid amt payer payee s) = journalSum s := rfl

theorem journalSum_zremBid (k : Nat) (s : ExchState) :
    journalSum (zremBid k s) = journalSum s := rfl

theorem journalSum_zremAsk (k : Nat) (s : ExchState) :
    journalSum (zremAsk k s) = journalSum s := rfl

theorem settleContract_journal (b a : String) (cid : Option String) (amt : ℚ)
    (s : ExchState) :
    (settleContract b a cid amt s).journal =
      (⟨PLATFORM_TRADER_ID, .balance, amt * PLATFORM_FEE_PERCENTAGE⟩ : LEntry) ::
      (⟨a, .balance, amt - amt * PLATFORM_FEE_PERCENTAGE⟩ : LEntry) ::
      (⟨b, .locked, -amt⟩ : LEntry) :: s.journal := by
  cases cid <;> rfl

theorem journalSum_journal_eq (a b : ExchState) (h : a.journal = b.journal) :
    journalSum a = journalSum b := by
  simp [journalSum, h]

theorem journalSum_settleContract (b a : String) (cid : Option String) (amt : ℚ)
    (s : ExchState) :
    journalSum (settleContract b a cid amt s) = journalSum s := by
  have h := journalSum_journal_eq (settleContract b a cid amt s)
    (post (post (post s b .locked (-amt)) a .balance
      (amt - amt * PLATFORM_FEE_PERCENTAGE)) PLATFORM_TRADER_ID .balance
      (amt * PLATFORM_FEE_PERCENTAGE)) (by rw [settleContract_journal]; rfl)
  rw [h]
  simp only [journalSum_post]
  ring

theorem journalSum_priceImprovementRelease (t : String) (p mp : ℚ) (q mq : Nat)
    (s : ExchState) :
    journalSum (priceImprovementRelease t p mp q mq s) = journalSum s := by
  simp only [priceImprovementRelease]
  split_ifs <;> simp [journalSum_release]

theorem journalSum_doMatch (side : Side) (book : String) (p : ℚ) (q : Nat)
    (trader : String) (ot : OrderType) (cid : Option String) (order opp : Order)
    (s : ExchState) :
    journalSum (doMatch side book p q trader ot cid order opp s).2 = journalSum s := by
  cases ot <;> cases side <;>
    simp only [doMatch, journalSum_priceImprovementRelease, journalSum_zremAsk,
      journalSum_zremBid, journalSum_mkHold, journalSum_settleContract, journalSum_bump,
      if_pos, if_neg, reduceCtorEq, ite_true, ite_false, if_true, if_false]

theorem journalSum_restOrder (o : Order) (s : ExchState) :
    journalSum (restOrder o s).2 = journalSum s := rfl

theorem journalSum_mk (j : List LEntry) (rb ra : List Order)
    (hl : List LegSettlementHold) (ow : List (String × String)) (n : Nat) :
    journalSum ⟨j, rb, ra, hl, ow, n⟩ = (j.map (fun e => e.amount)).sum := rfl

theorem journalSum_fold (s : ExchState) :
    (s.journal.map (fun e => e.amount)).sum = journalSum s := rfl

theorem journalSum_submit (side : Side) (book : String) (p : ℚ) (q : Nat)
    (trader : String) (ot : OrderType) (cid : Option String) (s : ExchState) :
    journalSum (submit_order side book p q trader ot cid s).2 = journalSum s := by
  simp only [submit_order]
  split_ifs <;> try rfl
  all_goals
    split <;> (try split_ifs) <;>
      simp only [journalSum_doMatch, journalSum_restOrder, journalSum_mk,
        journalSum_fold, journalSum_lock]

theorem settleHold_journal (h : LegSettlementHold) (s : ExchState) :
    (settleHold h s).journal =
      (⟨PLATFORM_TRADER_ID, .balance, h.amount * PLATFORM_FEE_PERCENTAGE⟩ : LEntry) ::
      (⟨h.payeeId, .balance, h.amount - h.amount * PLATFORM_FEE_PERCENTAGE⟩ : LEntry) ::
      (⟨h.payerId, .locked, -h.amount⟩ : LEntry) :: s.journal := rfl

theorem journalSum_settleHold (h : LegSettlementHold) (s : ExchState) :
    journalSum (settleHold h s) = journalSum s := by
  have he := journalSum_journal_eq (settleHold h s)
    (post (post (post s h.payerId .locked (-h.amount)) h.payeeId .balance
      (h.amount - h.amount * PLATFORM_FEE_PERCENTAGE)) PLATFORM_TRADER_ID .balance
      (h.amount * PLATFORM_FEE_PERCENTAGE)) (by rw [settleHold_journal]; rfl)
  rw [he]
  simp only [journalSum_post]
  ring

theorem journalSum_settleFold (l : List LegSettlementHold) (s : ExchState) :
    journalSum (l.foldl (fun st h => settleHold h st) s) = journalSum s := by
  induction l generalizing s with
  | nil => rfl
  | cons h l ih => simp [List.foldl_cons, ih, journalSum_settleHold]

theorem journalSum_finalize (base cid : String) (s : ExchState) :
    journalSum (finalize_leg_freight_settlement base cid s).2 = journalSum s := by
  simp only [finalize_leg_freight_settlement]
  split_ifs <;> simp [journalSum_settleFold]

theorem journalSum_applyEvent (e : Event) (s : ExchState) :
    journalSum (applyEvent e s) =
      (match e with | .fund _ a => a | _ => 0) + journalSum s := by
  cases e with
  | fund t a => simp [applyEvent, journalSum_post]
  | submit side b p q t ot cid => simp [applyEvent, journalSum_submit]
  | deliver l c => simp [applyEvent, journalSum_finalize]

theorem journalSum_runEvents (es : List Event) (s : ExchState) :
    journalSum (runEvents es s) = fundedTotal es + journalSum s := by
  induction es generalizing s with
  | nil => simp [runEvents, fundedTotal]
  | cons e es ih =>
      have hstep : runEvents (e :: es) s = runEvents es (applyEvent e s) := rfl
      rw [hstep, ih]
      cases e with
      | fund t a =>
          simp only [fundedTotal, applyEvent, journalSum_post]
          ring
      | submit side b p q t ot cid =>
          simp only [fundedTotal, applyEvent, journalSum_submit]
      | deliver l c =>
          simp only [fundedTotal, applyEvent, journalSum_finalize]

theorem balance_locked_split (J : List LEntry) (t : String) :
    (J.map (entryContrib t .balance)).sum + (J.map (entryContrib t .locked)).sum
      = (J.map (fun e => if e.trader = t then e.amount else 0)).sum := by
  induction J with
  | nil => simp
  | cons e J ih =>
      simp only [List.map_cons, List.sum_cons]
      rw [add_add_add_comm, ih]
      congr 1
      rcases e with ⟨tr, f, a⟩
      by_cases h : tr = t <;> cases f <;> simp [entryContrib, h]

theorem sum_if_single (ts : List String) (x : String) (a : ℚ)
    (hnd : ts.Nodup) (hx : x ∈ ts) :
    (ts.map (fun t => if x = t then a else 0)).sum = a := by
  induction ts with
  | nil => cases hx
  | cons t ts ih =>
      rw [List.nodup_cons] at hnd
      simp only [List.map_cons, List.sum_cons]
      by_cases h : x = t
      · subst h
        have hz : (ts.map (fun u => if x = u then a else 0)).sum = 0 := by
          apply List.sum_eq_zero
          intro y hy
          rcases List.mem_map.mp hy with ⟨u, hu, rfl⟩
          have hne : x ≠ u := fun he => hnd.1 (he ▸ hu)
          simp [hne]
        simp [hz]
      · cases hx with
        | head => exact absurd rfl h
        | tail _ h2 => simp [h, ih hnd.2 h2]

theorem sum_map_add_split (ts : List String) (f g : String → ℚ) :
    (ts.map (fun t => f t + g t)).sum = (ts.map f).sum + (ts.map g).sum := by
  induction ts with
  | nil => simp
  | cons u ts ih =>
      simp only [List.map_cons, List.sum_cons, ih]
      ring

theorem sum_journal_swap (J : List LEntry) (ts : List String)
    (hnd : ts.Nodup) (hcov : ∀ e ∈ J, e.trader ∈ ts) :
    (ts.map (fun t => (J.map (fun e => if e.trader = t then e.amount else 0)).sum)).sum
      = (J.map (fun e => e.amount)).sum := by
  induction J with
  | nil => simp
  | cons e J ih =>
      simp only [List.map_cons, List.sum_cons]
      rw [sum_map_add_split ts (fun t => if e.trader = t then e.amount else 0)
          (fun t => (J.map (fun e2 => if e2.trader = t then e2.amount else 0)).sum),
        sum_if_single ts e.trader e.amount hnd (hcov e (List.mem_cons_self e J)),
        ih (fun e2 he2 => hcov e2 (List.mem_cons_of_mem e he2))]

theorem sum_money_eq_journalSum (s : ExchState) (ts : List String)
    (hnd : ts.Nodup) (hcov : ∀ e ∈ s.journal, e.trader ∈ ts) :
    (ts.map (fun t => balOf s t + lockedOf s t)).sum = journalSum s := by
  have h1 : ∀ t, balOf s t + lockedOf s t
      = (s.journal.map (fun e => if e.trader = t then e.amount else 0)).sum :=
    fun t => balance_locked_split s.journal t
  simp only [h1]
  exact sum_journal_swap s.journal ts hnd hcov

/-- C5: monetary conservation.  Over any trader list covering every account
the journal has touched (the platform account included), the sum of available
plus locked balances after any sequence of funding, order-submission and
delivery-settlement events equals the total amount funded in: matching, fees,
locks, releases and settlements redistribute money but never create or
destroy it. -/
theorem monetary_conservation (es : List Event) (ts : List String)
    (hnd : ts.Nodup)
    (hcov : ∀ e ∈ (runEvents es init).journal, e.trader ∈ ts) :
    (ts.map (fun t => balOf (runEvents es init) t + lockedOf (runEvents es init) t)).sum
      = fundedTotal es := by
  rw [sum_money_eq_journalSum _ ts hnd hcov, journalSum_runEvents]
  simp [journalSum, init]

/-- Witness for the C5 theorem: fund T1 with 300, T2 rests an ask of 50 lots at
10, T1's 30-lot bid at 10 matches (a 300 freight hold), and delivery settles
it: 0 + 0 (T1) + 297 (T2) + 3 (Platform) = 300 funded. -/
theorem monetary_conservation_witness :
    (["T1", "T2", "Platform"].map (fun t =>
        balOf (runEvents [.fund "T1" 300,
          .submit .ask "L1_C1" 10 50 "T2" .LEG_FREIGHT (some "C1"),
          .submit .bid "L1_C1" 10 30 "T1" .LEG_FREIGHT (some "C1"),
          .deliver "L1" "C1"] init) t
        + lockedOf (runEvents [.fund "T1" 300,
          .submit .ask "L1_C1" 10 50 "T2" .LEG_FREIGHT (some "C1"),
          .submit .bid "L1_C1" 10 30 "T1" .LEG_FREIGHT (some "C1"),
          .deliver "L1" "C1"] init) t)).sum
      = fundedTotal [.fund "T1" 300,
          .submit .ask "L1_C1" 10 50 "T2" .LEG_FREIGHT (some "C1"),
          .submit .bid "L1_C1" 10 30 "T1" .LEG_FREIGHT (some "C1"),
          .deliver "L1" "C1"] :=
  monetary_conservation _ ["T1", "T2", "Platform"] (by decide)
    (by with_unfolding_all exact of_decide_eq_true rfl)

theorem pickLow_mem {l : List Order} {o : Order} (h : pickLow l = some o) : o ∈ l := by
  induction l with
  | nil => cases h
  | cons a l ih =>
      simp only [pickLow] at h
      cases hl : pickLow l with
      | none =>
          simp only [hl] at h
          cases h
          exact List.mem_cons_self _ _
      | some b =>
          simp only [hl] at h
          split_ifs at h
          · cases h
            exact List.mem_cons_self _ _
          · cases h
            exact List.mem_cons_of_mem _ (ih hl)

theorem pickHighScore_mem {l : List Order} {o : Order} (h : pickHighScore l = some o) :
    o ∈ l := by
  induction l with
  | nil => cases h
  | cons a l ih =>
      simp only [pickHighScore] at h
      cases hl : pickHighScore l with
      | none =>
          simp only [hl] at h
          cases h
          exact List.mem_cons_self _ _
      | some b =>
          simp only [hl] at h
          split_ifs at h
          · cases h
            exact List.mem_cons_self _ _
          · cases h
            exact List.mem_cons_of_mem _ (ih hl)

theorem sum_map_filter_oid_ne (f : Order → ℚ) (l : List Order) (o : Order)
    (hnd : (l.map (fun x => x.oid)).Nodup) (ho : o ∈ l) :
    ((l.filter (fun x => decide (x.oid ≠ o.oid))).map f).sum = (l.map f).sum - f o := by
  induction l with
  | nil => cases ho
  | cons a l ih =>
      rw [List.map_cons, List.nodup_cons] at hnd
      by_cases hao : a.oid = o.oid
      · have hoa : o = a := by
          cases ho with
          | head => rfl
          | tail _ hol =>
              exact absurd (hao ▸ List.mem_map_of_mem (fun x => x.oid) hol) hnd.1
        have hfl : l.filter (fun x => decide (x.oid ≠ o.oid)) = l := by
          apply List.filter_eq_self.mpr
          intro x hx
          simp only [decide_eq_true_eq]
          intro hxo
          exact hnd.1 (hao ▸ hxo ▸ List.mem_map_of_mem (fun y => y.oid) hx)
        rw [List.filter_cons, if_neg (by simp [hao]), hfl, List.map_cons, List.sum_cons, hoa]
        ring
      · have hol : o ∈ l := by
          cases ho with
          | head => exact absurd rfl hao
          | tail _ h2 => exact h2
        rw [List.filter_cons, if_pos (by simp [hao]), List.map_cons, List.sum_cons,
          ih hnd.2 hol, List.map_cons, List.sum_cons]
        ring

theorem sum_map_settle (t : String) (l : List LegSettlementHold) (h : LegSettlementHold)
    (hnd : (l.map (fun x => x.matchId)).Nodup) (hm : h ∈ l) :
    ((l.map (fun h2 => if h2.matchId = h.matchId then { h2 with status := HoldStatus.SETTLED }
        else h2)).map (holdContrib t)).sum
      = (l.map (holdContrib t)).sum - holdContrib t h := by
  induction l with
  | nil => cases hm
  | cons a l ih =>
      rw [List.map_cons, List.nodup_cons] at hnd
      by_cases hah : a.matchId = h.matchId
      · have hha : h = a := by
          cases hm with
          | head => rfl
          | tail _ hhl =>
              exact absurd (hah ▸ List.mem_map_of_mem (fun x => x.matchId) hhl) hnd.1
        have hfl : l.map (fun h2 => if h2.matchId = h.matchId then
            { h2 with status := HoldStatus.SETTLED } else h2) = l := by
          rw [List.map_congr_left (g := id), List.map_id]
          intro x hx
          have hne : x.matchId ≠ h.matchId :=
            fun he => hnd.1 (hah ▸ he ▸ List.mem_map_of_mem (fun y => y.matchId) hx)
          simp [hne]
        simp only [List.map_cons, List.sum_cons]
        rw [if_pos hah, hfl]
        have hsettled : holdContrib t { a with status := HoldStatus.SETTLED } = 0 := by
          simp [holdContrib]
        rw [hsettled, hha]
        ring
      · have hhl : h ∈ l := by
          cases hm with
          | head => exact absurd rfl hah
          | tail _ h2 => exact h2
        simp only [List.map_cons, List.sum_cons]
        rw [if_neg hah, ih hnd.2 hhl]
        ring

theorem lockedOf_journal_eq {s s' : ExchState} (h : s.journal = s'.journal) (t : String) :
    lockedOf s t = lockedOf s' t := by
  simp [lockedOf, h]

theorem lockedOf_post_balance (s : ExchState) (t : String) (a : ℚ) (t' : String) :
    lockedOf (post s t .balance a) t' = lockedOf s t' := by
  simp [lockedOf, post, entryContrib]

theorem lockedOf_post_locked (s : ExchState) (t : String) (a : ℚ) (t' : String) :
    lockedOf (post s t .locked a) t' = (if t = t' then a else 0) + lockedOf s t' := by
  simp [lockedOf, post, entryContrib]

theorem balOf_post_balance (s : ExchState) (t : String) (a : ℚ) (t' : String) :
    balOf (post s t .balance a) t' = (if t = t' then a else 0) + balOf s t' := by
  simp [balOf, post, entryContrib]

theorem pendingHoldsOf_post (s : ExchState) (t : String) (f : BalField) (a : ℚ)
    (t' : String) : pendingHoldsOf (post s t f a) t' = pendingHoldsOf s t' := rfl

theorem restingBidLockOf_post (s : ExchState) (t : String) (f : BalField) (a : ℚ)
    (t' : String) : restingBidLockOf (post s t f a) t' = restingBidLockOf s t' := rfl

theorem release_funds_cases (t : String) (a : ℚ) (s : ExchState) :
    (release_funds t a s).2 = s ∨
      ∃ r : ℚ, 0 < r ∧ r ≤ a ∧
        (release_funds t a s).2 = post (post s t .balance r) t .locked (-r) := by
  simp only [release_funds]
  split_ifs with h1 h2
  · exact Or.inl rfl
  · exact Or.inr ⟨min a (lockedOf s t), h2, min_le_left _ _, rfl⟩
  · exact Or.inl rfl

theorem pIR_cases (tr : String) (p mp : ℚ) (q mq : Nat) (s : ExchState) :
    priceImprovementRelease tr p mp q mq s = s ∨
      (q = mq ∧ ∃ r : ℚ, 0 < r ∧ r ≤ (p - mp) * (q : ℚ) ∧
        priceImprovementRelease tr p mp q mq s = post (post s tr .balance r) tr .locked (-r)) := by
  simp only [priceImprovementRelease]
  split_ifs with h1 h2
  · rcases release_funds_cases tr ((p - mp) * (q : ℚ)) s with h | ⟨r, hr0, hra, heq⟩
    · exact Or.inl h
    · exact Or.inr ⟨h1, r, hr0, hra, heq⟩
  · exact Or.inl rfl
  · exact Or.inl rfl

theorem settleContract_restingBids (b a : String) (cid : Option String) (amt : ℚ)
    (s : ExchState) : (settleContract b a cid amt s).restingBids = s.restingBids := by
  cases cid <;> rfl

theorem settleContract_restingAsks (b a : String) (cid : Option String) (amt : ℚ)
    (s : ExchState) : (settleContract b a cid amt s).restingAsks = s.restingAsks := by
  cases cid <;> rfl

theorem settleContract_holds (b a : String) (cid : Option String) (amt : ℚ)
    (s : ExchState) : (settleContract b a cid amt s).holds = s.holds := by
  cases cid <;> rfl

theorem settleContract_nextId (b a : String) (cid : Option String) (amt : ℚ)
    (s : ExchState) : (settleContract b a cid amt s).nextId = s.nextId := by
  cases cid <;> rfl

theorem lockedOf_settleContract (b a : String) (cid : Option String) (amt : ℚ)
    (s : ExchState) (t : String) :
    lockedOf (settleContract b a cid amt s) t = (if b = t then -amt else 0) + lockedOf s t := by
  have h : lockedOf (settleContract b a cid amt s) t
      = lockedOf (post (post (post s b .locked (-amt)) a .balance
          (amt - amt * PLATFORM_FEE_PERCENTAGE)) PLATFORM_TRADER_ID .balance
          (amt * PLATFORM_FEE_PERCENTAGE)) t :=
    lockedOf_journal_eq (by rw [settleContract_journal]; rfl) t
  rw [h, lockedOf_post_balance, lockedOf_post_balance, lockedOf_post_locked]

theorem pendingHoldsOf_settleContract (b a : String) (cid : Option String) (amt : ℚ)
    (s : ExchState) (t : String) :
    pendingHoldsOf (settleContract b a cid amt s) t = pendingHoldsOf s t := by
  simp [pendingHoldsOf, settleContract_holds]

theorem restingBidLockOf_settleContract (b a : String) (cid : Option String) (amt : ℚ)
    (s : ExchState) (t : String) :
    restingBidLockOf (settleContract b a cid amt s) t = restingBidLockOf s t := by
  simp [restingBidLockOf, settleContract_restingBids]

theorem pendingHoldsOf_mkHold (mid : Nat) (book : String) (cid : Option String)
    (amt : ℚ) (payer payee : String) (s : ExchState) (t : String) :
    pendingHoldsOf (mkHold mid book cid amt payer payee s) t
      = (if payer = t then amt else 0) + pendingHoldsOf s t := by
  simp [pendingHoldsOf, mkHold, holdContrib]

theorem lockedOf_zremBid (k : Nat) (s : ExchState) (t : String) :
    lockedOf (zremBid k s) t = lockedOf s t := rfl

theorem lockedOf_zremAsk (k : Nat) (s : ExchState) (t : String) :
    lockedOf (zremAsk k s) t = lockedOf s t := rfl

theorem pendingHoldsOf_zremBid (k : Nat) (s : ExchState) (t : String) :
    pendingHoldsOf (zremBid k s) t = pendingHoldsOf s t := rfl

theorem pendingHoldsOf_zremAsk (k : Nat) (s : ExchState) (t : String) :
    pendingHoldsOf (zremAsk k s) t = pendingHoldsOf s t := rfl

theorem restingBidLockOf_zremAsk (k : Nat) (s : ExchState) (t : String) :
    restingBidLockOf (zremAsk k s) t = restingBidLockOf s t := rfl

theorem restingBidLockOf_zremBid (s : ExchState) (t : String) (o : Order)
    (ho : o ∈ s.restingBids) (hnd : (s.restingBids.map (fun x => x.oid)).Nodup) :
    restingBidLockOf (zremBid o.oid s) t = restingBidLockOf s t - bidLockContrib t o :=
  sum_map_filter_oid_ne (bidLockContrib t) s.restingBids o hnd ho

theorem settleHold_restingBids (h : LegSettlementHold) (s : ExchState) :
    (settleHold h s).restingBids = s.restingBids := rfl

theorem settleHold_restingAsks (h : LegSettlementHold) (s : ExchState) :
    (settleHold h s).restingAsks = s.restingAsks := rfl

theorem settleHold_nextId (h : LegSettlementHold) (s : ExchState) :
    (settleHold h s).nextId = s.nextId := rfl

theorem settleHold_holds (h : LegSettlementHold) (s : ExchState) :
    (settleHold h s).holds = s.holds.map (fun h2 =>
      if h2.matchId = h.matchId then { h2 with status := HoldStatus.SETTLED } else h2) := rfl

theorem restingBidLockOf_settleHold (h : LegSettlementHold) (s : ExchState) (t : String) :
    restingBidLockOf (settleHold h s) t = restingBidLockOf s t := rfl

theorem lockedOf_settleHold (h : LegSettlementHold) (s : ExchState) (t : String) :
    lockedOf (settleHold h s) t = (if h.payerId = t then -h.amount else 0) + lockedOf s t := by
  have he : lockedOf (settleHold h s) t
      = lockedOf (post (post (post s h.payerId .locked (-h.amount)) h.payeeId .balance
          (h.amount - h.amount * PLATFORM_FEE_PERCENTAGE)) PLATFORM_TRADER_ID .balance
          (h.amount * PLATFORM_FEE_PERCENTAGE)) t :=
    lockedOf_journal_eq (by rw [settleHold_journal]; rfl) t
  rw [he, lockedOf_post_balance, lockedOf_post_balance, lockedOf_post_locked]

theorem pendingHoldsOf_settleHold (h : LegSettlementHold) (s : ExchState) (t : String)
    (hnd : (s.holds.map (fun x => x.matchId)).Nodup) (hm : h ∈ s.holds) :
    pendingHoldsOf (settleHold h s) t = pendingHoldsOf s t - holdContrib t h :=
  sum_map_settle t s.holds h hnd hm

theorem post_restingBids (s : ExchState) (t : String) (f : BalField) (a : ℚ) :
    (post s t f a).restingBids = s.restingBids := rfl

theorem post_restingAsks (s : ExchState) (t : String) (f : BalField) (a : ℚ) :
    (post s t f a).restingAsks = s.restingAsks := rfl

theorem post_holds (s : ExchState) (t : String) (f : BalField) (a : ℚ) :
    (post s t f a).holds = s.holds := rfl

theorem post_nextId (s : ExchState) (t : String) (f : BalField) (a : ℚ) :
    (post s t f a).nextId = s.nextId := rfl

theorem zremAsk_restingBids (k : Nat) (s : ExchState) :
    (zremAsk k s).restingBids = s.restingBids := rfl

theorem zremAsk_restingAsks (k : Nat) (s : ExchState) :
    (zremAsk k s).restingAsks = s.restingAsks.filter (fun o => decide (o.oid ≠ k)) := rfl

theorem zremAsk_holds (k : Nat) (s : ExchState) : (zremAsk k s).holds = s.holds := rfl

theorem zremAsk_nextId (k : Nat) (s : ExchState) : (zremAsk k s).nextId = s.nextId := rfl

theorem zremBid_restingBids (k : Nat) (s : ExchState) :
    (zremBid k s).restingBids = s.restingBids.filter (fun o => decide (o.oid ≠ k)) := rfl

theorem zremBid_restingAsks (k : Nat) (s : ExchState) :
    (zremBid k s).restingAsks = s.restingAsks := rfl

theorem zremBid_holds (k : Nat) (s : ExchState) : (zremBid k s).holds = s.holds := rfl

theorem zremBid_nextId (k : Nat) (s : ExchState) : (zremBid k s).nextId = s.nextId := rfl

theorem mkHold_restingBids (mid : Nat) (book : String) (cid : Option String) (amt : ℚ)
    (payer payee : String) (s : ExchState) :
    (mkHold mid book cid amt payer payee s).restingBids = s.restingBids := rfl

theorem mkHold_restingAsks (mid : Nat) (book : String) (cid : Option String) (amt : ℚ)
    (payer payee : String) (s : ExchState) :
    (mkHold mid book cid amt payer payee s).restingAsks = s.restingAsks := rfl

theorem mkHold_holds (mid : Nat) (book : String) (cid : Option String) (amt : ℚ)
    (payer payee : String) (s : ExchState) :
    (mkHold mid book cid amt payer payee s).holds =
      (⟨mid, book, cid.getD "UNKNOWN_CONTRACT", amt, payer, payee,
        HoldStatus.PENDING_DELIVERY⟩ : LegSettlementHold) :: s.holds := rfl

theorem mkHold_nextId (mid : Nat) (book : String) (cid : Option String) (amt : ℚ)
    (payer payee : String) (s : ExchState) :
    (mkHold mid book cid amt payer payee s).nextId = s.nextId := rfl

theorem lockedOf_mkHold (mid : Nat) (book : String) (cid : Option String) (amt : ℚ)
    (payer payee : String) (s : ExchState) (t : String) :
    lockedOf (mkHold mid book cid amt payer payee s) t = lockedOf s t := rfl

theorem restingBidLockOf_mkHold (mid : Nat) (book : String) (cid : Option String)
    (amt : ℚ) (payer payee : String) (s : ExchState) (t : String) :
    restingBidLockOf (mkHold mid book cid amt payer payee s) t = restingBidLockOf s t := rfl

theorem lockedOf_bump (s : ExchState) (n : Nat) (t : String) :
    lockedOf { s with nextId := n } t = lockedOf s t := rfl

theorem pendingHoldsOf_bump (s : ExchState) (n : Nat) (t : String) :
    pendingHoldsOf { s with nextId := n } t = pendingHoldsOf s t := rfl

theorem restingBidLockOf_bump (s : ExchState) (n : Nat) (t : String) :
    restingBidLockOf { s with nextId := n } t = restingBidLockOf s t := rfl

theorem doMatch_bid_eq (book : String) (p : ℚ) (q : Nat) (trader : String)
    (ot : OrderType) (cid : Option String) (order opp : Order) (s : ExchState) :
    (doMatch .bid book p q trader ot cid order opp s).2
      = priceImprovementRelease trader p opp.price q (min q opp.qty)
          (zremAsk opp.oid
            (match ot with
             | .CONTRACT_OWNERSHIP => settleContract order.trader opp.trader cid
                 (opp.price * ((min q opp.qty : Nat) : ℚ)) { s with nextId := s.nextId + 1 }
             | .LEG_FREIGHT => mkHold s.nextId book cid
                 (opp.price * ((min q opp.qty : Nat) : ℚ)) order.trader opp.trader
                 { s with nextId := s.nextId + 1 })) := by
  cases ot <;> rfl

theorem doMatch_ask_eq (book : String) (p : ℚ) (q : Nat) (trader : String)
    (ot : OrderType) (cid : Option String) (order opp : Order) (s : ExchState) :
    (doMatch .ask book p q trader ot cid order opp s).2
      = zremBid opp.oid
          (match ot with
           | .CONTRACT_OWNERSHIP => settleContract opp.trader order.trader cid
               (opp.price * ((min q opp.qty : Nat) : ℚ)) { s with nextId := s.nextId + 1 }
           | .LEG_FREIGHT => mkHold s.nextId book cid
               (opp.price * ((min q opp.qty : Nat) : ℚ)) opp.trader order.trader
               { s with nextId := s.nextId + 1 }) := by
  cases ot <;> rfl

theorem amt_release_bound (p mp : ℚ) (q mq : Nat) (r : ℚ)
    (hmp0 : 0 ≤ mp) (hmple : mp ≤ p) (hmq : mq ≤ q)
    (hr : r = 0 ∨ (q = mq ∧ 0 < r ∧ r ≤ (p - mp) * (q : ℚ))) :
    mp * ((mq : Nat) : ℚ) + r ≤ p * (q : ℚ) := by
  have h1 : ((mq : Nat) : ℚ) ≤ ((q : Nat) : ℚ) := by exact_mod_cast hmq
  have h0q : (0 : ℚ) ≤ ((mq : Nat) : ℚ) := by positivity
  have hmul : mp * ((mq : Nat) : ℚ) ≤ p * ((q : Nat) : ℚ) :=
    mul_le_mul hmple h1 h0q (le_trans hmp0 hmple)
  rcases hr with rfl | ⟨hqmq, hr0, hrle⟩
  · linarith
  · rw [← hqmq] at hmq h1 h0q hmul ⊢
    nlinarith

theorem restingBidLockOf_nonneg (s : ExchState)
    (hBP : ∀ o ∈ s.restingBids, 0 < o.price) (t : String) :
    0 ≤ restingBidLockOf s t := by
  apply List.sum_nonneg
  intro x hx
  rcases List.mem_map.mp hx with ⟨o, ho, rfl⟩
  unfold bidLockContrib
  split_ifs
  · exact mul_nonneg (le_of_lt (hBP o ho)) (by positivity)
  · exact le_refl 0

theorem doMatch_bid_preserves (book : String) (p : ℚ) (q : Nat) (trader : String)
    (ot : OrderType) (cid : Option String) (order opp : Order) (s : ExchState)
    (hBP : ∀ o' ∈ s.restingBids, 0 < o'.price)
    (hAP : ∀ o' ∈ s.restingAsks, 0 < o'.price)
    (hBLt : ∀ o' ∈ s.restingBids, o'.oid < s.nextId)
    (hHLt : ∀ h2 ∈ s.holds, h2.matchId < s.nextId)
    (hBN : (s.restingBids.map (fun x => x.oid)).Nodup)
    (hHN : (s.holds.map (fun x => x.matchId)).Nodup)
    (hopp : opp ∈ s.restingAsks)
    (hcm : opp.price ≤ p)
    (hordtr : order.trader = trader)
    (hmoney : ∀ t, pendingHoldsOf s t + restingBidLockOf s t
      + (if trader = t then p * (q : ℚ) else 0) ≤ lockedOf s t) :
    Inv (doMatch .bid book p q trader ot cid order opp s).2 := by
  have hmpPos : 0 < opp.price := hAP opp hopp
  have hamt0 : opp.price * ((min q opp.qty : Nat) : ℚ) + 0 ≤ p * (q : ℚ) :=
    amt_release_bound p opp.price q (min q opp.qty) 0 (le_of_lt hmpPos) hcm
      (min_le_left _ _) (Or.inl rfl)
  rw [doMatch_bid_eq]
  cases ot with
  | CONTRACT_OWNERSHIP =>
      rcases pIR_cases trader p opp.price q (min q opp.qty)
          (zremAsk opp.oid (settleContract order.trader opp.trader cid
            (opp.price * ((min q opp.qty : Nat) : ℚ)) { s with nextId := s.nextId + 1 }))
        with heq | ⟨hqmq, r, hr0, hrle, heq⟩ <;>
        rw [heq] <;>
        constructor <;>
        (try simp only [post_restingBids, post_restingAsks, post_holds, post_nextId,
          zremAsk_restingBids, zremAsk_restingAsks, zremAsk_holds, zremAsk_nextId,
          settleContract_restingBids, settleContract_restingAsks, settleContract_holds,
          settleContract_nextId])
      case bidPricePos => exact hBP
      case askPricePos =>
          intro o' ho'
          exact hAP o' (List.mem_of_mem_filter ho')
      case bidOidLt =>
          intro o' ho'
          exact Nat.lt_succ_of_lt (hBLt o' ho')
      case holdIdLt =>
          intro h2 hh2
          exact Nat.lt_succ_of_lt (hHLt h2 hh2)
      case bidOidNodup => exact hBN
      case holdIdNodup => exact hHN
      case money =>
          intro t
          rw [pendingHoldsOf_zremAsk, pendingHoldsOf_settleContract, pendingHoldsOf_bump,
            restingBidLockOf_zremAsk, restingBidLockOf_settleContract, restingBidLockOf_bump,
            lockedOf_zremAsk, lockedOf_settleContract, lockedOf_bump]
          by_cases ht : trader = t
          · have hot : order.trader = t := hordtr.trans ht
            rw [if_pos hot]
            have h1 := hmoney t
            rw [if_pos ht] at h1
            linarith
          · rw [if_neg (fun he => ht (hordtr ▸ he))]
            have h1 := hmoney t
            rw [if_neg ht] at h1
            linarith
      case bidPricePos => exact hBP
      case askPricePos =>
          intro o' ho'
          exact hAP o' (List.mem_of_mem_filter ho')
      case bidOidLt =>
          intro o' ho'
          exact Nat.lt_succ_of_lt (hBLt o' ho')
      case holdIdLt =>
          intro h2 hh2
          exact Nat.lt_succ_of_lt (hHLt h2 hh2)
      case bidOidNodup => exact hBN
      case holdIdNodup => exact hHN
      case money =>
          intro t
          rw [pendingHoldsOf_post, pendingHoldsOf_post, pendingHoldsOf_zremAsk,
            pendingHoldsOf_settleContract, pendingHoldsOf_bump,
            restingBidLockOf_post, restingBidLockOf_post, restingBidLockOf_zremAsk,
            restingBidLockOf_settleContract, restingBidLockOf_bump,
            lockedOf_post_locked, lockedOf_post_balance, lockedOf_zremAsk,
            lockedOf_settleContract, lockedOf_bump]
          have hbound : opp.price * ((min q opp.qty : Nat) : ℚ) + r ≤ p * (q : ℚ) :=
            amt_release_bound p opp.price q (min q opp.qty) r (le_of_lt hmpPos) hcm
              (min_le_left _ _) (Or.inr ⟨hqmq, hr0, hrle⟩)
          by_cases ht : trader = t
          · have hot : order.trader = t := hordtr.trans ht
            rw [if_pos hot, if_pos ht]
            have h1 := hmoney t
            rw [if_pos ht] at h1
            linarith
          · rw [if_neg (fun he => ht (hordtr ▸ he)), if_neg ht]
            have h1 := hmoney t
            rw [if_neg ht] at h1
            linarith
  | LEG_FREIGHT =>
      rcases pIR_cases trader p opp.price q (min q opp.qty)
          (zremAsk opp.oid (mkHold s.nextId book cid
            (opp.price * ((min q opp.qty : Nat) : ℚ)) order.trader opp.trader
            { s with nextId := s.nextId + 1 }))
        with heq | ⟨hqmq, r, hr0, hrle, heq⟩ <;>
        rw [heq] <;>
        constructor <;>
        (try simp only [post_restingBids, post_restingAsks, post_holds, post_nextId,
          zremAsk_restingBids, zremAsk_restingAsks, zremAsk_holds, zremAsk_nextId,
          mkHold_restingBids, mkHold_restingAsks, mkHold_holds, mkHold_nextId])
      case bidPricePos => exact hBP
      case askPricePos =>
          intro o' ho'
          exact hAP o' (List.mem_of_mem_filter ho')
      case bidOidLt =>
          intro o' ho'
          exact Nat.lt_succ_of_lt (hBLt o' ho')
      case holdIdLt =>
          intro h2 hh2
          cases hh2 with
          | head => exact Nat.lt_succ_self _
          | tail _ h3 => exact Nat.lt_succ_of_lt (hHLt h2 h3)
      case bidOidNodup => exact hBN
      case holdIdNodup =>
          rw [List.map_cons, List.nodup_cons]
          refine ⟨fun hmem => ?_, hHN⟩
          rcases List.mem_map.mp hmem with ⟨h2, hh2, hid⟩
          exact absurd hid (Nat.ne_of_gt (hHLt h2 hh2)).symm
      case money =>
          intro t
          rw [pendingHoldsOf_zremAsk, pendingHoldsOf_mkHold, pendingHoldsOf_bump,
            restingBidLockOf_zremAsk, restingBidLockOf_mkHold, restingBidLockOf_bump,
            lockedOf_zremAsk, lockedOf_mkHold, lockedOf_bump]
          by_cases ht : trader = t
          · have hot : order.trader = t := hordtr.trans ht
            rw [if_pos hot]
            have h1 := hmoney t
            rw [if_pos ht] at h1
            linarith
          · rw [if_neg (fun he => ht (hordtr ▸ he))]
            have h1 := hmoney t
            rw [if_neg ht] at h1
            linarith
      case bidPricePos => exact hBP
      case askPricePos =>
          intro o' ho'
          exact hAP o' (List.mem_of_mem_filter ho')
      case bidOidLt =>
          intro o' ho'
          exact Nat.lt_succ_of_lt (hBLt o' ho')
      case holdIdLt =>
          intro h2 hh2
          cases hh2 with
          | head => exact Nat.lt_succ_self _
          | tail _ h3 => exact Nat.lt_succ_of_lt (hHLt h2 h3)
      case bidOidNodup => exact hBN
      case holdIdNodup =>
          rw [List.map_cons, List.nodup_cons]
          refine ⟨fun hmem => ?_, hHN⟩
          rcases List.mem_map.mp hmem with ⟨h2, hh2, hid⟩
          exact absurd hid (Nat.ne_of_gt (hHLt h2 hh2)).symm
      case money =>
          intro t
          rw [pendingHoldsOf_post, pendingHoldsOf_post, pendingHoldsOf_zremAsk,
            pendingHoldsOf_mkHold, pendingHoldsOf_bump,
            restingBidLockOf_post, restingBidLockOf_post, restingBidLockOf_zremAsk,
            restingBidLockOf_mkHold, restingBidLockOf_bump,
            lockedOf_post_locked, lockedOf_post_balance, lockedOf_zremAsk,
            lockedOf_mkHold, lockedOf_bump]
          have hbound : opp.price * ((min q opp.qty : Nat) : ℚ) + r ≤ p * (q : ℚ) :=
            amt_release_bound p opp.price q (min q opp.qty) r (le_of_lt hmpPos) hcm
              (min_le_left _ _) (Or.inr ⟨hqmq, hr0, hrle⟩)
          by_cases ht : trader = t
          · have hot : order.trader = t := hordtr.trans ht
            rw [if_pos hot, if_pos ht]
            have h1 := hmoney t
            rw [if_pos ht] at h1
            linarith
          · rw [if_neg (fun he => ht (hordtr ▸ he)), if_neg ht]
            have h1 := hmoney t
            rw [if_neg ht] at h1
            linarith

theorem doMatch_ask_preserves (book : String) (p : ℚ) (q : Nat) (trader : String)
    (ot : OrderType) (cid : Option String) (order opp : Order) (s : ExchState)
    (hBP : ∀ o' ∈ s.restingBids, 0 < o'.price)
    (hAP : ∀ o' ∈ s.restingAsks, 0 < o'.price)
    (hBLt : ∀ o' ∈ s.restingBids, o'.oid < s.nextId)
    (hHLt : ∀ h2 ∈ s.holds, h2.matchId < s.nextId)
    (hBN : (s.restingBids.map (fun x => x.oid)).Nodup)
    (hHN : (s.holds.map (fun x => x.matchId)).Nodup)
    (hopp : opp ∈ s.restingBids)
    (hmoney : ∀ t, pendingHoldsOf s t + restingBidLockOf s t ≤ lockedOf s t) :
    Inv (doMatch .ask book p q trader ot cid order opp s).2 := by
  have hbpPos : 0 < opp.price := hBP opp hopp
  have hamt : opp.price * ((min q opp.qty : Nat) : ℚ) ≤ opp.price * ((opp.qty : Nat) : ℚ) :=
    mul_le_mul_of_nonneg_left (by exact_mod_cast min_le_right q opp.qty) (le_of_lt hbpPos)
  rw [doMatch_ask_eq]
  cases ot with
  | CONTRACT_OWNERSHIP =>
      have hS3b : (settleContract opp.trader order.trader cid
          (opp.price * ((min q opp.qty : Nat) : ℚ))
          { s with nextId := s.nextId + 1 }).restingBids = s.restingBids := by
        rw [settleContract_restingBids]
      constructor <;>
        (try simp only [zremBid_restingBids, zremBid_restingAsks, zremBid_holds,
          zremBid_nextId, settleContract_restingBids, settleContract_restingAsks,
          settleContract_holds, settleContract_nextId])
      case bidPricePos =>
          intro o' ho'
          exact hBP o' (List.mem_of_mem_filter ho')
      case askPricePos => exact hAP
      case bidOidLt =>
          intro o' ho'
          exact Nat.lt_succ_of_lt (hBLt o' (List.mem_of_mem_filter ho'))
      case holdIdLt =>
          intro h2 hh2
          exact Nat.lt_succ_of_lt (hHLt h2 hh2)
      case bidOidNodup =>
          exact List.Nodup.sublist ((List.filter_sublist _).map (fun x : Order => x.oid)) hBN
      case holdIdNodup => exact hHN
      case money =>
          intro t
          rw [pendingHoldsOf_zremBid, pendingHoldsOf_settleContract, pendingHoldsOf_bump,
            restingBidLockOf_zremBid _ t opp (by rw [hS3b]; exact hopp) (by rw [hS3b]; exact hBN),
            restingBidLockOf_settleContract, restingBidLockOf_bump,
            lockedOf_zremBid, lockedOf_settleContract, lockedOf_bump]
          unfold bidLockContrib
          by_cases ht : opp.trader = t
          · rw [if_pos ht, if_pos ht]
            have h1 := hmoney t
            linarith
          · rw [if_neg ht, if_neg ht]
            have h1 := hmoney t
            linarith
  | LEG_FREIGHT =>
      have hS3b : (mkHold s.nextId book cid (opp.price * ((min q opp.qty : Nat) : ℚ))
          opp.trader order.trader { s with nextId := s.nextId + 1 }).restingBids
          = s.restingBids := by
        rw [mkHold_restingBids]
      constructor <;>
        (try simp only [zremBid_restingBids, zremBid_restingAsks, zremBid_holds,
          zremBid_nextId, mkHold_restingBids, mkHold_restingAsks, mkHold_holds,
          mkHold_nextId])
      case bidPricePos =>
          intro o' ho'
          exact hBP o' (List.mem_of_mem_filter ho')
      case askPricePos => exact hAP
      case bidOidLt =>
          intro o' ho'
          exact Nat.lt_succ_of_lt (hBLt o' (List.mem_of_mem_filter ho'))
      case holdIdLt =>
          intro h2 hh2
          cases hh2 with
          | head => exact Nat.lt_succ_self _
          | tail _ h3 => exact Nat.lt_succ_of_lt (hHLt h2 h3)
      case bidOidNodup =>
          exact List.Nodup.sublist ((List.filter_sublist _).map (fun x : Order => x.oid)) hBN
      case holdIdNodup =>
          rw [List.map_cons, List.nodup_cons]
          refine ⟨fun hmem => ?_, hHN⟩
          rcases List.mem_map.mp hmem with ⟨h2, hh2, hid⟩
          exact absurd hid (Nat.ne_of_gt (hHLt h2 hh2)).symm
      case money =>
          intro t
          rw [pendingHoldsOf_zremBid, pendingHoldsOf_mkHold, pendingHoldsOf_bump,
            restingBidLockOf_zremBid _ t opp (by rw [hS3b]; exact hopp) (by rw [hS3b]; exact hBN),
            restingBidLockOf_mkHold, restingBidLockOf_bump,
            lockedOf_zremBid, lockedOf_mkHold, lockedOf_bump]
          unfold bidLockContrib
          by_cases ht : opp.trader = t
          · rw [if_pos ht, if_pos ht]
            have h1 := hmoney t
            linarith
          · rw [if_neg ht, if_neg ht]
            have h1 := hmoney t
            linarith

theorem restOrder_restingBids (o : Order) (s : ExchState) :
    (restOrder o s).2.restingBids = restBids o s := rfl

theorem restOrder_restingAsks (o : Order) (s : ExchState) :
    (restOrder o s).2.restingAsks = restAsks o s := rfl

theorem restOrder_holds (o : Order) (s : ExchState) :
    (restOrder o s).2.holds = s.holds := rfl

theorem restOrder_nextId (o : Order) (s : ExchState) :
    (restOrder o s).2.nextId = s.nextId := rfl

theorem lockedOf_restOrder (o : Order) (s : ExchState) (t : String) :
    lockedOf (restOrder o s).2 t = lockedOf s t := rfl

theorem pendingHoldsOf_restOrder (o : Order) (s : ExchState) (t : String) :
    pendingHoldsOf (restOrder o s).2 t = pendingHoldsOf s t := rfl

theorem restingBidLockOf_restOrder (o : Order) (s : ExchState) (t : String) :
    restingBidLockOf (restOrder o s).2 t
      = (if o.side = .bid then bidLockContrib t o else 0) + restingBidLockOf s t := by
  rcases o with ⟨oid, lid, tr, side, pr, qt, ts, oty, cc⟩
  cases side <;> simp [restOrder, restBids, restingBidLockOf]

theorem mem_restBids {o' : Order} (o : Order) (s : ExchState) (h : o' ∈ restBids o s) :
    o' = o ∨ o' ∈ s.restingBids := by
  rcases o with ⟨oid, lid, tr, side, pr, qt, ts, oty, cc⟩
  cases side
  · simp only [restBids] at h
    cases h with
    | head => exact Or.inl rfl
    | tail _ h2 => exact Or.inr h2
  · exact Or.inr h

theorem mem_restAsks {o' : Order} (o : Order) (s : ExchState) (h : o' ∈ restAsks o s) :
    o' = o ∨ o' ∈ s.restingAsks := by
  rcases o with ⟨oid, lid, tr, side, pr, qt, ts, oty, cc⟩
  cases side
  · exact Or.inr h
  · simp only [restAsks] at h
    cases h with
    | head => exact Or.inl rfl
    | tail _ h2 => exact Or.inr h2

theorem restBids_oid_nodup (o : Order) (s : ExchState)
    (hBN : (s.restingBids.map (fun x => x.oid)).Nodup)
    (hfresh : ∀ o' ∈ s.restingBids, o'.oid ≠ o.oid) :
    ((restBids o s).map (fun x => x.oid)).Nodup := by
  rcases o with ⟨oid, lid, tr, side, pr, qt, ts, oty, cc⟩
  cases side
  · simp only [restBids, List.map_cons]
    rw [List.nodup_cons]
    refine ⟨fun hmem => ?_, hBN⟩
    rcases List.mem_map.mp hmem with ⟨o', ho', hid⟩
    exact hfresh o' ho' hid
  · exact hBN

theorem restOrder_preserves (o : Order) (s : ExchState)
    (hBP : ∀ o' ∈ s.restingBids, 0 < o'.price)
    (hAP : ∀ o' ∈ s.restingAsks, 0 < o'.price)
    (hBLt : ∀ o' ∈ s.restingBids, o'.oid < s.nextId)
    (hHLt : ∀ h2 ∈ s.holds, h2.matchId < s.nextId)
    (hBN : (s.restingBids.map (fun x => x.oid)).Nodup)
    (hHN : (s.holds.map (fun x => x.matchId)).Nodup)
    (hop : 0 < o.price)
    (holt : o.oid < s.nextId)
    (hfresh : ∀ o' ∈ s.restingBids, o'.oid ≠ o.oid)
    (hmoney : ∀ t, pendingHoldsOf s t + restingBidLockOf s t
      + (if o.side = .bid ∧ o.trader = t then o.price * (o.qty : ℚ) else 0) ≤ lockedOf s t) :
    Inv (restOrder o s).2 := by
  constructor
  case bidPricePos =>
      intro o' ho'
      rw [restOrder_restingBids] at ho'
      rcases mem_restBids o s ho' with rfl | hmem
      · exact hop
      · exact hBP o' hmem
  case askPricePos =>
      intro o' ho'
      rw [restOrder_restingAsks] at ho'
      rcases mem_restAsks o s ho' with rfl | hmem
      · exact hop
      · exact hAP o' hmem
  case bidOidLt =>
      intro o' ho'
      rw [restOrder_restingBids] at ho'
      rw [restOrder_nextId]
      rcases mem_restBids o s ho' with rfl | hmem
      · exact holt
      · exact hBLt o' hmem
  case holdIdLt =>
      intro h2 hh2
      rw [restOrder_holds] at hh2
      rw [restOrder_nextId]
      exact hHLt h2 hh2
  case bidOidNodup =>
      rw [restOrder_restingBids]
      exact restBids_oid_nodup o s hBN hfresh
  case holdIdNodup =>
      rw [restOrder_holds]
      exact hHN
  case money =>
      intro t
      rw [pendingHoldsOf_restOrder, restingBidLockOf_restOrder, lockedOf_restOrder]
      have hiff : (if o.side = .bid then bidLockContrib t o else 0)
          = (if o.side = .bid ∧ o.trader = t then o.price * (o.qty : ℚ) else 0) := by
        by_cases hs : o.side = .bid <;> by_cases ht : o.trader = t <;>
          simp [bidLockContrib, hs, ht]
      rw [hiff]
      have h1 := hmoney t
      linarith

theorem submit_preserves (side : Side) (book : String) (p : ℚ) (q : Nat)
    (trader : String) (ot : OrderType) (cid : Option String) (s : ExchState)
    (hInv : Inv s) :
    Inv (submit_order side book p q trader ot cid s).2 := by
  obtain ⟨hBP, hAP, hBLt, hHLt, hBN, hHN, hmoney⟩ := hInv
  simp only [submit_order]
  by_cases h1 : p ≤ 0 ∨ q = 0
  · rw [if_pos h1]
    exact ⟨hBP, hAP, hBLt, hHLt, hBN, hHN, hmoney⟩
  rw [if_neg h1]
  push_neg at h1
  obtain ⟨hp, hq⟩ := h1
  cases side with
  | ask =>
      rw [if_neg (fun hc => Side.noConfusion hc.1)]
      rw [if_neg (show ¬Side.ask = Side.bid from fun hc => Side.noConfusion hc)]
      split
      next opp heq =>
          simp only [findOpp] at heq
          have hopp : opp ∈ s.restingBids :=
            List.mem_of_mem_filter (pickHighScore_mem heq)
          split_ifs with hcm
          · exact doMatch_ask_preserves book p q trader ot cid _ opp _
              hBP hAP (fun o' ho' => Nat.lt_succ_of_lt (hBLt o' ho'))
              (fun h2 hh2 => Nat.lt_succ_of_lt (hHLt h2 hh2)) hBN hHN hopp hmoney
          · refine restOrder_preserves _ _ hBP hAP
              (fun o' ho' => Nat.lt_succ_of_lt (hBLt o' ho'))
              (fun h2 hh2 => Nat.lt_succ_of_lt (hHLt h2 hh2)) hBN hHN hp
              (Nat.lt_succ_self _)
              (fun o' ho' => Nat.ne_of_lt (hBLt o' ho')) ?_
            intro t
            simpa using hmoney t
      next heq =>
          refine restOrder_preserves _ _ hBP hAP
            (fun o' ho' => Nat.lt_succ_of_lt (hBLt o' ho'))
            (fun h2 hh2 => Nat.lt_succ_of_lt (hHLt h2 hh2)) hBN hHN hp
            (Nat.lt_succ_self _)
            (fun o' ho' => Nat.ne_of_lt (hBLt o' ho')) ?_
          intro t
          simpa using hmoney t
  | bid =>
      have hq' : 0 < ((q : Nat) : ℚ) := by exact_mod_cast Nat.pos_of_ne_zero hq
      have hamt : 0 < p * ((q : Nat) : ℚ) := mul_pos hp hq'
      by_cases hlf : (lock_funds trader (p * ((q : Nat) : ℚ)) s).1 = false
      · rw [if_pos ⟨rfl, hlf⟩]
        exact ⟨hBP, hAP, hBLt, hHLt, hBN, hHN, hmoney⟩
      · rw [if_neg (fun hc => hlf hc.2)]
        by_cases hbal : balOf s trader < p * ((q : Nat) : ℚ)
        · exfalso
          apply hlf
          unfold lock_funds
          rw [if_neg (not_le.mpr hamt), if_pos hbal]
        · have hsL : (lock_funds trader (p * ((q : Nat) : ℚ)) s).2
              = post (post s trader .balance (-(p * ((q : Nat) : ℚ)))) trader .locked
                  (p * ((q : Nat) : ℚ)) := by
            unfold lock_funds
            rw [if_neg (not_le.mpr hamt), if_neg hbal]
          rw [if_pos rfl, hsL]
          have hlock1 : ∀ t, lockedOf { post (post s trader .balance
              (-(p * ((q : Nat) : ℚ)))) trader .locked (p * ((q : Nat) : ℚ)) with
                nextId := s.nextId + 1 } t
              = (if trader = t then p * ((q : Nat) : ℚ) else 0) + lockedOf s t := by
            intro t
            rw [lockedOf_bump, lockedOf_post_locked, lockedOf_post_balance]
          have hmoneyHead : ∀ t, pendingHoldsOf s t + restingBidLockOf s t
              + (if trader = t then p * ((q : Nat) : ℚ) else 0)
              ≤ lockedOf { post (post s trader .balance (-(p * ((q : Nat) : ℚ)))) trader
                  .locked (p * ((q : Nat) : ℚ)) with nextId := s.nextId + 1 } t := by
            intro t
            rw [hlock1 t]
            have := hmoney t
            linarith
          split
          next opp heq =>
              simp only [findOpp] at heq
              have hopp : opp ∈ s.restingAsks :=
                List.mem_of_mem_filter (pickLow_mem heq)
              split_ifs with hcm
              · refine doMatch_bid_preserves book p q trader ot cid _ opp _
                  hBP hAP (fun o' ho' => Nat.lt_succ_of_lt (hBLt o' ho'))
                  (fun h2 hh2 => Nat.lt_succ_of_lt (hHLt h2 hh2)) hBN hHN hopp ?_ rfl
                  hmoneyHead
                simpa [canMatch] using hcm
              · refine restOrder_preserves _ _ hBP hAP
                  (fun o' ho' => Nat.lt_succ_of_lt (hBLt o' ho'))
                  (fun h2 hh2 => Nat.lt_succ_of_lt (hHLt h2 hh2)) hBN hHN hp
                  (Nat.lt_succ_self _)
                  (fun o' ho' => Nat.ne_of_lt (hBLt o' ho')) ?_
                intro t
                have := hmoneyHead t
                simpa using this
          next heq =>
              refine restOrder_preserves _ _ hBP hAP
                (fun o' ho' => Nat.lt_succ_of_lt (hBLt o' ho'))
                (fun h2 hh2 => Nat.lt_succ_of_lt (hHLt h2 hh2)) hBN hHN hp
                (Nat.lt_succ_self _)
                (fun o' ho' => Nat.ne_of_lt (hBLt o' ho')) ?_
              intro t
              have := hmoneyHead t
              simpa using this

theorem settleHold_matchIds (h : LegSettlementHold) (s : ExchState) :
    (settleHold h s).holds.map (fun x => x.matchId) = s.holds.map (fun x => x.matchId) := by
  rw [settleHold_holds, List.map_map]
  apply List.map_congr_left
  intro x hx
  by_cases hm2 : x.matchId = h.matchId <;> simp [hm2]

theorem settleHold_preserves (h : LegSettlementHold) (s : ExchState)
    (hInv : Inv s) (hmm : h ∈ s.holds) (hst : h.status = HoldStatus.PENDING_DELIVERY) :
    Inv (settleHold h s) := by
  obtain ⟨hBP, hAP, hBLt, hHLt, hBN, hHN, hmoney⟩ := hInv
  constructor
  case bidPricePos => rw [settleHold_restingBids]; exact hBP
  case askPricePos => rw [settleHold_restingAsks]; exact hAP
  case bidOidLt => rw [settleHold_restingBids, settleHold_nextId]; exact hBLt
  case holdIdLt =>
      intro h2 hh2
      rw [settleHold_nextId]
      rw [settleHold_holds] at hh2
      rcases List.mem_map.mp hh2 with ⟨h3, hmem3, rfl⟩
      by_cases hm3 : h3.matchId = h.matchId <;> simp only [hm3, if_pos, if_neg, ite_true,
        ite_false, if_true, if_false]
      · exact hm3 ▸ hHLt h3 hmem3
      · exact hHLt h3 hmem3
  case bidOidNodup => rw [settleHold_restingBids]; exact hBN
  case holdIdNodup => rw [settleHold_matchIds]; exact hHN
  case money =>
      intro t
      rw [pendingHoldsOf_settleHold h s t hHN hmm, restingBidLockOf_settleHold,
        lockedOf_settleHold]
      unfold holdContrib
      by_cases ht : h.payerId = t
      · rw [if_pos ⟨ht, hst⟩, if_pos ht]
        have h1 := hmoney t
        linarith
      · rw [if_neg (fun hc => ht hc.1), if_neg ht]
        have h1 := hmoney t
        linarith

theorem settleFold_preserves (l : List LegSettlementHold) (s : ExchState)
    (hInv : Inv s)
    (hmem : ∀ h ∈ l, h ∈ s.holds)
    (hpend : ∀ h ∈ l, h.status = HoldStatus.PENDING_DELIVERY)
    (hnd : (l.map (fun x => x.matchId)).Nodup) :
    Inv (l.foldl (fun st h => settleHold h st) s) := by
  induction l generalizing s with
  | nil => exact hInv
  | cons h l ih =>
      rw [List.foldl_cons]
      rw [List.map_cons, List.nodup_cons] at hnd
      have hmm : h ∈ s.holds := hmem h (List.mem_cons_self h l)
      have hst : h.status = HoldStatus.PENDING_DELIVERY := hpend h (List.mem_cons_self h l)
      apply ih
      · exact settleHold_preserves h s hInv hmm hst
      · intro h2 hh2
        have hne : h2.matchId ≠ h.matchId :=
          fun he => hnd.1 (he ▸ List.mem_map_of_mem (fun x => x.matchId) hh2)
        rw [settleHold_holds]
        have hfix : (if h2.matchId = h.matchId then
            { h2 with status := HoldStatus.SETTLED } else h2) = h2 := if_neg hne
        rw [← hfix]
        exact List.mem_map_of_mem _ (hmem h2 (List.mem_cons_of_mem h hh2))
      · intro h2 hh2
        exact hpend h2 (List.mem_cons_of_mem h hh2)
      · exact hnd.2

theorem finalize_preserves (base cid : String) (s : ExchState) (hInv : Inv s) :
    Inv (finalize_leg_freight_settlement base cid s).2 := by
  simp only [finalize_leg_freight_settlement]
  split_ifs with hnil
  · exact hInv
  · apply settleFold_preserves _ _ hInv
    · intro h hh
      exact List.mem_of_mem_filter hh
    · intro h hh
      have hpred := List.of_mem_filter hh
      simp only [decide_eq_true_eq] at hpred
      exact hpred.2.2
    · exact List.Nodup.sublist
        ((List.filter_sublist _).map (fun x : LegSettlementHold => x.matchId))
        hInv.holdIdNodup

theorem fund_preserves (t : String) (a : ℚ) (s : ExchState) (hInv : Inv s) :
    Inv (post s t .balance a) := by
  obtain ⟨hBP, hAP, hBLt, hHLt, hBN, hHN, hmoney⟩ := hInv
  refine ⟨hBP, hAP, hBLt, hHLt, hBN, hHN, ?_⟩
  intro t'
  rw [pendingHoldsOf_post, restingBidLockOf_post, lockedOf_post_balance]
  exact hmoney t'

theorem applyEvent_preserves (e : Event) (s : ExchState) (hInv : Inv s) :
    Inv (applyEvent e s) := by
  cases e with
  | fund t a => exact fund_preserves t a s hInv
  | submit side b p q t ot cid => exact submit_preserves side b p q t ot cid s hInv
  | deliver l c => exact finalize_preserves l c s hInv

theorem Inv_init : Inv init := by
  refine ⟨?_, ?_, ?_, ?_, ?_, ?_, ?_⟩ <;>
    simp [init, pendingHoldsOf, restingBidLockOf, lockedOf]

theorem runEvents_Inv (es : List Event) : Inv (runEvents es init) := by
  suffices h : ∀ s, Inv s → Inv (runEvents es s) from h init Inv_init
  induction es with
  | nil => exact fun s hs => hs
  | cons e es ih => exact fun s hs => ih _ (applyEvent_preserves e s hs)

/-- C8: hold consistency.  At every state reachable by any sequence of
funding, order-submission and delivery-settlement events, every trader's
locked balance is at least the sum of the amounts of all settlement holds in
status PENDING_DELIVERY whose payer is that trader. -/
theorem hold_consistency (es : List Event) (t : String) :
    pendingHoldsOf (runEvents es init) t ≤ lockedOf (runEvents es init) t := by
  have h := (runEvents_Inv es).money t
  have h2 : 0 ≤ restingBidLockOf (runEvents es init) t :=
    restingBidLockOf_nonneg _ (runEvents_Inv es).bidPricePos t
  linarith

end ContainerFutures
